import Mathlib

/-!
Shallow embedding of the table-extraction and text-formatting core of
`src/processor.py`, together with proofs settling the behavioural claims
about it.  Grids are lists of rows of optional strings; the Python float
thresholds (`0.15`, `0.2`, `0.5`) are rendered as exact integer
cross-multiplications, and `int(x)` as natural division.
-/

namespace PdfProcessor

/-- Characters treated as whitespace by Python's `str.strip()`. -/
def isPyWS (c : Char) : Bool :=
  c = ' ' || c = '\t' || c = '\n' || c = '\r' || c = '\x0b' || c = '\x0c'

/-- Drop trailing whitespace characters. -/
def stripEnd : List Char → List Char
  | [] => []
  | c :: cs =>
    if stripEnd cs = [] then (if isPyWS c then [] else [c]) else c :: stripEnd cs

/-- Python `str.strip()`: drop leading and trailing whitespace. -/
def pyStrip (l : List Char) : List Char := stripEnd (l.dropWhile isPyWS)

/-- `str.strip()` on a `String`. -/
def pyStripStr (s : String) : String := ⟨pyStrip s.data⟩

/-- A grid cell: `None` or a string. -/
abbrev Cell := Option String

abbrev Row := List Cell

abbrev Table := List Row

/-- `cell is not None and str(cell).strip()` — the occupancy test used throughout. -/
def cellNonEmpty : Cell → Bool
  | none => false
  | some s => decide (pyStripStr s ≠ "")

/-- `_count_non_empty_cells`: number of non-empty cells of a row. -/
def countNonEmpty (r : Row) : Nat := (r.filter cellNonEmpty).length

/-- `_get_non_empty_indices`: indices of the non-empty cells, in order. -/
def nonEmptyIndices (r : Row) : List Nat :=
  (List.range r.length).filter (fun i => cellNonEmpty (r.getD i none))

/-- `max(len(row) for row in table)` (0 for an empty table). -/
def maxCols (t : Table) : Nat := t.foldl (fun m r => max m r.length) 0

/-- Number of rows of `rows` whose cell at column `i` is non-empty
(`col_usage[i]` respectively `col_counts[i]`). -/
def usageIn (rows : List Row) (i : Nat) : Nat :=
  (rows.filter (fun r => cellNonEmpty (r.getD i none))).length

/-- Association-list view of the `seen` dict of `_make_unique_columns`. -/
def lookupSeen : List (String × Nat) → String → Option Nat
  | [], _ => none
  | (a, b) :: rest, k => if a = k then some b else lookupSeen rest k

/-- `seen[col] = v` on the association list. -/
def setSeen : List (String × Nat) → String → Nat → List (String × Nat)
  | [], k, v => [(k, v)]
  | (a, b) :: rest, k, v => if a = k then (a, v) :: rest else (a, b) :: setSeen rest k v

/-- `str(col).strip() if col is not None else ""`. -/
def normName : Cell → String
  | none => ""
  | some s => pyStripStr s

/-- Loop body of `_make_unique_columns` (the `seen` dict threaded through). -/
def makeUniqueAux : List (String × Nat) → List Cell → List String
  | _, [] => []
  | seen, c :: cs =>
    let col := normName c
    match lookupSeen seen col with
    | some k => (col ++ "_" ++ toString (k + 1)) :: makeUniqueAux (setSeen seen col (k + 1)) cs
    | none => col :: makeUniqueAux ((col, 0) :: seen) cs

/-- `_make_unique_columns`. -/
def makeUniqueColumns (cols : List Cell) : List String := makeUniqueAux [] cols

/-- Insert into an ascending list. -/
def insertAsc (x : Nat) : List Nat → List Nat
  | [] => [x]
  | y :: ys => if x ≤ y then x :: y :: ys else y :: insertAsc x ys

/-- Ascending insertion sort; `sortAsc (dedup l)` models Python `sorted(set(l))`. -/
def sortAsc : List Nat → List Nat
  | [] => []
  | x :: xs => insertAsc x (sortAsc xs)

/-- Insert into a lexicographically descending list of `(usage, index)` pairs. -/
def insertDesc (p : Nat × Nat) : List (Nat × Nat) → List (Nat × Nat)
  | [] => [p]
  | q :: qs => if q.1 < p.1 ∨ (q.1 = p.1 ∧ q.2 ≤ p.2) then p :: q :: qs else q :: insertDesc p qs

/-- Descending sort of `(usage, index)` pairs, as `list.sort(reverse=True)`
produces on these duplicate-free tuples. -/
def sortDesc : List (Nat × Nat) → List (Nat × Nat)
  | [] => []
  | p :: ps => insertDesc p (sortDesc ps)

/-- Fold computing `max(keys, key=lambda x: (freq[x], x))`: later key wins
only when strictly better in the (frequency, value) order. -/
def pickTarget (f : Nat → Nat) : Nat → List Nat → Nat
  | k, [] => k
  | k, c :: cs => pickTarget f (if f k < f c ∨ (f k = f c ∧ k < c) then c else k) cs

/-- The target column count of `_find_table_structure`: mode of the ≥2
non-empty counts, ties broken toward the larger count; the `3` default of the
unreachable empty-Counter branch.  The order of `dedup` (Counter key order)
does not affect the maximum. -/
def targetColCount (t : Table) : Nat :=
  let filtered := (t.map countNonEmpty).filter (fun c => decide (2 ≤ c))
  match filtered.dedup with
  | [] => 3
  | k :: ks => pickTarget (fun c => filtered.count c) k ks

/-- Header scan: first row whose count is `≥ max(2, target * 0.5)`
(`2 ≤ c ∧ target ≤ 2 * c` exactly), defaulting to 0. -/
def findHeaderAux (target : Nat) : Nat → List Nat → Nat
  | _, [] => 0
  | i, c :: cs => if 2 ≤ c ∧ target ≤ 2 * c then i else findHeaderAux target (i + 1) cs

/-- The add-back loops over the header row (`for i, cell in enumerate(header_row)`):
append `i` when the header cell is non-empty, `i` is not yet kept, and `cond i`
holds (the main path additionally demands positive usage; the guard path does not). -/
def addBack (header : Row) (cond : Nat → Bool) (start : List Nat) : List Nat :=
  (List.range header.length).foldl
    (fun acc i =>
      if cellNonEmpty (header.getD i none) = true ∧ i ∉ acc ∧ cond i = true then acc ++ [i]
      else acc)
    start

/-- `_find_table_structure`.  Thresholds: `usage ≥ max(1, d * 0.15)` is
`max 20 (3 * d) ≤ 20 * usage`; `sorted(set(cols))` is `sortAsc ∘ dedup`. -/
def findTableStructure (t : Table) : Nat × Option (List Nat) :=
  if t.length < 2 then (0, none)
  else
    let counts := t.map countNonEmpty
    if (counts.filter (fun c => decide (2 ≤ c))) = [] then (0, none)
    else
      let target := targetColCount t
      let hIdx := findHeaderAux target 0 counts
      let dataRows := t.drop (hIdx + 1)
      if dataRows = [] then (hIdx, none)
      else
        let maxC := maxCols t
        let d := dataRows.length
        let cols1 := (List.range maxC).filter
          (fun i => decide (max 20 (3 * d) ≤ 20 * usageIn dataRows i))
        let header := t.getD hIdx []
        let cols2 := addBack header (fun i => decide (i < maxC ∧ 0 < usageIn dataRows i)) cols1
        let cols3 :=
          if cols2.length < 3 ∧ 3 < maxC then
            let ranked := (sortDesc ((List.range maxC).map
              (fun i => (usageIn dataRows i, i)))).take (max 3 (maxC / 2))
            addBack header (fun _ => true) (ranked.map (·.2))
          else cols2
        (hIdx, some (sortAsc cols3.dedup))

/-- Fallback column heuristics of `_clean_table` (lines 160–186): 20% fill
rate (`count ≥ max(1, n * 0.2)` is `max 5 n ≤ 5 * count`), then any usage,
capped at the top 20 by usage.  When `maxCols = 0` every branch is empty,
matching the early `return cleaned_table`. -/
def fallbackCols (cleaned : Table) : List Nat :=
  let numRows := cleaned.length
  let maxC := maxCols cleaned
  let cols1 := (List.range maxC).filter
    (fun i => decide (max 5 numRows ≤ 5 * usageIn cleaned i))
  if cols1 ≠ [] then cols1
  else
    let cols2 := (List.range maxC).filter (fun i => decide (0 < usageIn cleaned i))
    if 20 < cols2.length then
      ((sortDesc (cols2.map (fun i => (usageIn cleaned i, i)))).take 20).map (·.2)
    else cols2

/-- The retained columns `_clean_table` ends up with after the primary
detection and the fallback cascade. -/
def cascadeCols (t : Table) : List Nat :=
  let s := findTableStructure t
  match s.2 with
  | none => fallbackCols (t.drop s.1)
  | some cs => if cs = [] then fallbackCols (t.drop s.1) else cs

/-- `_clean_table`. -/
def cleanTable (t : Table) : Table :=
  if t = [] then t
  else
    let cleaned := t.drop (findTableStructure t).1
    if cleaned = [] then t
    else
      let cols := cascadeCols t
      if cols = [] then cleaned
      else cleaned.map (fun r => cols.map (fun j => r.getD j none))

/-- A named-column dataset (a pandas DataFrame of optional strings). -/
structure Dataset where
  schema : List String
  rows : List (List Cell)
deriving DecidableEq, Repr

/-- Count of non-null cells of column `j` (pandas' non-NA count; only `None`
is NA for these object columns). -/
def colNonNACount (d : Dataset) (j : Nat) : Nat :=
  (d.rows.filter (fun r => (r.getD j none).isSome)).length

/-- Per-table dataset construction of `tables_to_dataframe` (lines 265–286)
on an already-cleaned table: header naming, all-empty-row and all-empty-column
drops, the header-only branch.  `pd.DataFrame(cleaned[1:], columns=columns)`
is modelled for body rows no wider than the header, as cleaning produces. -/
def tableToDataset (cleaned : Table) : Option Dataset :=
  if 1 < cleaned.length then
    let columns := makeUniqueColumns (cleaned.headD [])
    let body := (cleaned.drop 1).map (fun r => (List.range columns.length).map (fun j => r.getD j none))
    let rows1 := body.filter (fun r => !r.all Option.isNone)
    let keep := (List.range columns.length).filter
      (fun j => !rows1.all (fun r => (r.getD j none).isNone))
    let schema := keep.map (fun j => columns.getD j "")
    let rows2 := rows1.map (fun r => keep.map (fun j => r.getD j none))
    if rows2 ≠ [] ∧ schema ≠ [] then some ⟨schema, rows2⟩ else none
  else if cleaned.length = 1 then
    let columns := (makeUniqueColumns (cleaned.headD [])).filter
      (fun c => decide (c ≠ "" ∧ pyStripStr c ≠ ""))
    if columns ≠ [] then some ⟨columns, []⟩ else none
  else none

/-- Merged schema of `pd.concat(..., join="outer")` with default `sort=False`:
union of the per-table schemas in first-seen order. -/
def unionSchemas (ds : List Dataset) : List String :=
  ds.foldl (fun acc d => acc ++ d.schema.filter (fun c => decide (c ∉ acc))) []

/-- Value of column `c` in row `r` of dataset `d` (label alignment; `None`
when `d` lacks the column). -/
def colValue (d : Dataset) (r : List Cell) (c : String) : Cell :=
  match d.schema.findIdx? (fun c2 => decide (c2 = c)) with
  | some j => r.getD j none
  | none => none

/-- Concatenation of a list of lists. -/
def concatAll : List (List α) → List α
  | [] => []
  | l :: ls => l ++ concatAll ls

/-- `pd.concat(all_tables, ignore_index=True, axis=0, join="outer")`:
outer-join column alignment, rows stacked in order, missing values `None`. -/
def outerConcat (ds : List Dataset) : Dataset :=
  let schema := unionSchemas ds
  { schema := schema
    rows := concatAll (ds.map (fun d => d.rows.map (fun r => schema.map (colValue d r)))) }

/-- `merged_df.dropna(axis=1, thresh=max(1, int(len(merged_df) * 0.2)))`:
keep columns with at least `max 1 (n / 5)` non-null cells (`int` truncates). -/
def dropSparseCols (d : Dataset) : Dataset :=
  let keep := (List.range d.schema.length).filter
    (fun j => decide (max 1 (d.rows.length / 5) ≤ colNonNACount d j))
  { schema := keep.map (fun j => d.schema.getD j "")
    rows := d.rows.map (fun r => keep.map (fun j => r.getD j none)) }

/-- `re.sub(r"\n\x7b3,\x7d", "\n\n", text)`: a run of `n` newlines becomes
`min n 2` newlines. -/
def collapseNLAux : Nat → List Char → List Char
  | n, [] => List.replicate (min n 2) '\n'
  | n, c :: cs =>
    if c = '\n' then collapseNLAux (n + 1) cs
    else List.replicate (min n 2) '\n' ++ c :: collapseNLAux 0 cs

def collapseNL (l : List Char) : List Char := collapseNLAux 0 l

/-- `re.sub(r"[ \t]+", " ", text)`: each run of spaces/tabs becomes one space. -/
def collapseSPAux : Bool → List Char → List Char
  | pending, [] => if pending then [' '] else []
  | pending, c :: cs =>
    if c = ' ' ∨ c = '\t' then collapseSPAux true cs
    else (if pending then [' '] else []) ++ c :: collapseSPAux false cs

def collapseSP (l : List Char) : List Char := collapseSPAux false l

/-- `text.split("\n")`. -/
def splitLines : List Char → List (List Char)
  | [] => [[]]
  | c :: cs =>
    if c = '\n' then [] :: splitLines cs
    else
      match splitLines cs with
      | [] => [[c]]
      | l :: ls => (c :: l) :: ls

/-- The line-reflow loop of `_format_text`: strip each line, keep non-blank
lines, keep a blank line only after a non-blank one.  `acc` holds the
`formatted_lines` list in reverse. -/
def reflowAux : List (List Char) → List (List Char) → List (List Char)
  | acc, [] => acc.reverse
  | acc, l :: ls =>
    if pyStrip l ≠ [] then reflowAux (pyStrip l :: acc) ls
    else if acc.headD [] ≠ [] then reflowAux ([] :: acc) ls
    else reflowAux acc ls

/-- `"\n".join(lines)`. -/
def joinLines : List (List Char) → List Char
  | [] => []
  | [l] => l
  | l :: ls => l ++ '\n' :: joinLines ls

/-- The `"=" * 60` rule line. -/
def ruleLine : List Char := List.replicate 60 '='

/-- The page-delimiter block prepended when the document has several pages. -/
def pageHeader (p n : Nat) : List Char :=
  '\n' :: ruleLine ++ '\n' :: ("Page " ++ toString p ++ " of " ++ toString n).data
    ++ '\n' :: ruleLine ++ ['\n', '\n']

/-- `_format_text` on the character list of the page text. -/
def formatTextChars (text : List Char) (p n : Nat) : List Char :=
  if text = [] then []
  else
    let t1 := collapseSP (collapseNL text)
    let t2 := if 1 < n then pageHeader p n ++ t1 else t1
    joinLines (reflowAux [] (splitLines t2))

/-- `_format_text`. -/
def formatText (s : String) (p n : Nat) : String := ⟨formatTextChars s.data p n⟩

/-- Occurrences of `n` in `l`. -/
def countOcc (n : String) (l : List String) : Nat :=
  (l.filter (fun m => decide (m = n))).length

/-- Modelled from the spec's words for the uniquification claim: the first
occurrence of a (normalised) name stays bare, its k-th later duplicate gets
the suffix `_k`. -/
def specSuffixScheme : List String → List String → List String
  | _, [] => []
  | prev, n :: rest =>
    (if countOcc n prev = 0 then n else n ++ "_" ++ toString (countOcc n prev))
      :: specSuffixScheme (prev ++ [n]) rest

/-- A 2-row grid, uniformly occupied in columns 0 and 1, of width 5. -/
def uniformWideGrid : Table :=
  [[some "a", some "b", none, none, none], [some "c", some "d", none, none, none]]

/-- A 2-row grid, uniformly occupied in columns 0, 1 and 2. -/
def uniform3Grid : Table :=
  [[some "x", some "y", some "z"], [some "1", some "2", some "3"]]

/-- Decorative blank first row, then a 3-column header, then 5 full data rows. -/
def decorGrid : Table :=
  [[some "", some "", some ""],
   [some "ID", some "Name", some "Amt"],
   [some "1", some "Ann", some "10"],
   [some "2", some "Bob", some "20"],
   [some "3", some "Cy", some "30"],
   [some "4", some "Dee", some "40"],
   [some "5", some "Eve", some "50"]]

def tableAB : Table := [[some "A", some "B"], [some "a1", some "b1"]]

def tableBC : Table := [[some "B", some "C"], [some "b2", some "c2"]]

/-- A 2-row grid with no non-empty cell at all. -/
def emptyGrid2 : Table := [[none], [none]]

/-- A merged dataset of 7 rows whose column `B` has exactly one non-null cell. -/
def sparseMerged : Dataset :=
  { schema := ["A", "B"]
    rows := [[some "1", some "x"], [some "2", none], [some "3", none], [some "4", none],
             [some "5", none], [some "6", none], [some "7", none]] }

/-! ### Helper lemmas -/

theorem stripEnd_head {l : List Char} {c : Char} {r : List Char}
    (h : stripEnd l = c :: r) : ∃ r2, l = c :: r2 := by
  cases l with
  | nil => rw [stripEnd] at h; exact absurd h (by simp)
  | cons a as =>
    rw [stripEnd] at h
    by_cases hs : stripEnd as = []
    · rw [if_pos hs] at h
      split at h
      · exact absurd h (by simp)
      · injection h with h1 _
        exact ⟨as, by rw [h1]⟩
    · rw [if_neg hs] at h
      injection h with h1 _
      exact ⟨as, by rw [h1]⟩

theorem dropWhile_head_not {p : Char → Bool} {l : List Char} {c : Char} {r : List Char}
    (h : l.dropWhile p = c :: r) : p c = false := by
  induction l with
  | nil => simp [List.dropWhile] at h
  | cons a as ih =>
    rw [List.dropWhile_cons] at h
    split at h
    · exact ih h
    · next hp =>
      have : a = c := by injection h with h1 _
      subst this
      simpa using hp

theorem pyStrip_head {l : List Char} {c : Char} {r : List Char}
    (h : pyStrip l = c :: r) : isPyWS c = false := by
  obtain ⟨r2, h2⟩ := stripEnd_head h
  exact dropWhile_head_not h2

theorem reflowAux_head (ls : List (List Char)) :
    ∀ acc, (∀ x, acc.getLast? = some x → ∃ c r, x = c :: r ∧ isPyWS c = false) →
    ∀ y, (reflowAux acc ls).head? = some y → ∃ c r, y = c :: r ∧ isPyWS c = false := by
  induction ls with
  | nil =>
    intro acc hacc y hy
    rw [reflowAux, List.head?_reverse] at hy
    exact hacc y hy
  | cons l ls ih =>
    intro acc hacc y hy
    rw [reflowAux] at hy
    by_cases hs : pyStrip l = []
    · rw [if_neg (by simp [hs])] at hy
      by_cases hh : acc.headD [] = []
      · rw [if_neg (not_not_intro hh)] at hy
        exact ih acc hacc y hy
      · rw [if_pos hh] at hy
        refine ih ([] :: acc) ?_ y hy
        intro x hx
        rcases acc with _ | ⟨a, as⟩
        · exact absurd rfl hh
        · rw [List.getLast?_cons_cons] at hx
          exact hacc x hx
    · rw [if_pos hs] at hy
      refine ih (pyStrip l :: acc) ?_ y hy
      intro x hx
      rcases acc with _ | ⟨a, as⟩
      · have hx2 : pyStrip l = x := by simpa using hx
        subst hx2
        rcases hsp : pyStrip l with _ | ⟨c, cs⟩
        · exact absurd hsp hs
        · exact ⟨c, cs, rfl, pyStrip_head hsp⟩
      · rw [List.getLast?_cons_cons] at hx
        exact hacc x hx

theorem joinLines_head {h : List Char} {t : List (List Char)} (hne : h ≠ []) :
    (joinLines (h :: t)).head? = h.head? := by
  cases t with
  | nil => rfl
  | cons a as =>
    show ((h ++ '\n' :: joinLines (a :: as)) : List Char).head? = h.head?
    cases h with
    | nil => exact absurd rfl hne
    | cons c cs => rfl

theorem lookupSeen_setSeen (seen : List (String × Nat)) (k : String) (v : Nat) (m : String) :
    lookupSeen (setSeen seen k v) m = if k = m then some v else lookupSeen seen m := by
  induction seen with
  | nil =>
    by_cases h : k = m <;> simp [setSeen, lookupSeen, h]
  | cons p rest ih =>
    obtain ⟨a, b⟩ := p
    by_cases hak : a = k
    · rw [setSeen, if_pos hak]
      by_cases ham : a = m
      · have hkm : k = m := hak.symm.trans ham
        rw [lookupSeen, if_pos ham, if_pos hkm]
      · have hkm : ¬k = m := fun hc => ham (hak.trans hc)
        rw [lookupSeen, if_neg ham, if_neg hkm, lookupSeen, if_neg ham]
    · rw [setSeen, if_neg hak]
      by_cases ham : a = m
      · have hkm : ¬k = m := fun hc => hak (ham.trans hc.symm)
        rw [lookupSeen, if_pos ham, if_neg hkm, lookupSeen, if_pos ham]
      · rw [lookupSeen, if_neg ham, ih, lookupSeen, if_neg ham]

/-- `seen[col]` as an occurrence count: `k + 1` if bound to `k`, else `0`. -/
def seenCount (seen : List (String × Nat)) (name : String) : Nat :=
  match lookupSeen seen name with
  | some k => k + 1
  | none => 0

theorem countOcc_append_singleton (nm m : String) (l : List String) :
    countOcc nm (l ++ [m]) = countOcc nm l + if m = nm then 1 else 0 := by
  rw [countOcc, countOcc, List.filter_append, List.length_append]
  by_cases h : m = nm <;> simp [h]

theorem makeUniqueAux_spec :
    ∀ (cs : List Cell) (seen : List (String × Nat)) (prev : List String),
    (∀ name, seenCount seen name = countOcc name prev) →
    makeUniqueAux seen cs = specSuffixScheme prev (cs.map normName) := by
  intro cs
  induction cs with
  | nil => intro seen prev _; rfl
  | cons c cs ih =>
    intro seen prev h
    have hc := h (normName c)
    cases hl : lookupSeen seen (normName c) with
    | some k =>
      simp only [seenCount, hl] at hc
      simp only [List.map_cons, makeUniqueAux, hl, specSuffixScheme]
      rw [if_neg (by omega)]
      have hsuffix : toString (countOcc (normName c) prev) = toString (k + 1) := by rw [← hc]
      rw [hsuffix]
      refine congrArg _ ?_
      apply ih
      intro name
      rw [seenCount, lookupSeen_setSeen, countOcc_append_singleton]
      by_cases hnm : normName c = name
      · rw [if_pos hnm, if_pos hnm]
        show k + 1 + 1 = countOcc name prev + 1
        rw [← hnm, ← hc]
      · rw [if_neg hnm, if_neg hnm]
        show seenCount seen name = countOcc name prev + 0
        rw [h name]
        rfl
    | none =>
      simp only [seenCount, hl] at hc
      simp only [List.map_cons, makeUniqueAux, hl, specSuffixScheme]
      rw [if_pos hc.symm]
      refine congrArg _ ?_
      apply ih
      intro name
      rw [seenCount, countOcc_append_singleton]
      by_cases hnm : normName c = name
      · rw [show lookupSeen ((normName c, 0) :: seen) name = some 0 from by
          rw [lookupSeen, if_pos hnm]]
        rw [if_pos hnm]
        show 0 + 1 = countOcc name prev + 1
        rw [← hnm, ← hc]
      · rw [show lookupSeen ((normName c, 0) :: seen) name = lookupSeen seen name from by
          rw [lookupSeen, if_neg hnm]]
        rw [if_neg hnm]
        show seenCount seen name = countOcc name prev + 0
        rw [h name]
        rfl

theorem cellNonEmpty_getD_iff (r : Row) (i : Nat) :
    cellNonEmpty (r.getD i none) = true ↔ i ∈ nonEmptyIndices r := by
  rw [nonEmptyIndices, List.mem_filter, List.mem_range]
  constructor
  · intro h
    refine ⟨?_, h⟩
    by_contra hlt
    push_neg at hlt
    rw [List.getD_eq_default r none hlt] at h
    exact absurd h (by rw [cellNonEmpty]; simp)
  · exact fun h => h.2

theorem countNonEmpty_eq (r : Row) : countNonEmpty r = (nonEmptyIndices r).length := by
  induction r with
  | nil => rfl
  | cons a as ih =>
    rw [countNonEmpty, nonEmptyIndices, List.length_cons, List.range_succ_eq_map,
      List.filter_cons, List.filter_cons]
    rw [List.filter_map]
    have hcomp : ((fun i => cellNonEmpty ((a :: as).getD i none)) ∘ Nat.succ) =
        fun i => cellNonEmpty (as.getD i none) := by
      funext i
      rfl
    rw [hcomp]
    rw [List.getD_cons_zero]
    by_cases ha : cellNonEmpty a = true
    · rw [if_pos ha, if_pos ha, List.length_cons, List.length_cons, List.length_map]
      rw [← countNonEmpty, ← nonEmptyIndices, ih]
    · rw [if_neg ha, if_neg ha, List.length_map]
      rw [← countNonEmpty, ← nonEmptyIndices, ih]

theorem foldl_max_le_init (t : Table) (b : Nat) : b ≤ t.foldl (fun m r => max m r.length) b := by
  induction t generalizing b with
  | nil => simp
  | cons r t ih =>
    rw [List.foldl_cons]
    exact le_trans (le_max_left _ _) (ih (max b r.length))

theorem length_le_maxCols {t : Table} {r : Row} (h : r ∈ t) : r.length ≤ maxCols t := by
  rw [maxCols]
  suffices hgen : ∀ (t2 : Table) (b : Nat), r ∈ t2 → r.length ≤ t2.foldl (fun m r => max m r.length) b from
    hgen t 0 h
  intro t2
  induction t2 with
  | nil => intro b hb; cases hb
  | cons r2 t2 ih =>
    intro b hb
    rw [List.foldl_cons]
    rcases List.mem_cons.1 hb with rfl | hb2
    · exact le_trans (le_max_right _ _) (foldl_max_le_init t2 (max b r.length))
    · exact ih (max b r2.length) hb2

theorem counts_replicate {t : Table} {S : List Nat}
    (hS : ∀ r ∈ t, nonEmptyIndices r = S) :
    t.map countNonEmpty = List.replicate t.length S.length := by
  rw [List.eq_replicate_iff]
  refine ⟨by simp, ?_⟩
  intro b hb
  obtain ⟨r, hr, rfl⟩ := List.mem_map.1 hb
  rw [countNonEmpty_eq, hS r hr]

theorem dedup_replicate {α : Type} [DecidableEq α] (a : α) :
    ∀ n, 0 < n → (List.replicate n a).dedup = [a] := by
  intro n
  induction n with
  | zero => intro h; omega
  | succ m ih =>
    intro _
    cases m with
    | zero => simp
    | succ k =>
      rw [List.replicate_succ, List.dedup_cons_of_mem (by simp [List.mem_replicate])]
      exact ih (by omega)

theorem filter_range_shrink (p : Nat → Bool) {m M : Nat} (hm : m ≤ M)
    (hp : ∀ i, p i = true → i < m) :
    (List.range M).filter p = (List.range m).filter p := by
  obtain ⟨k, rfl⟩ := Nat.exists_eq_add_of_le hm
  rw [List.range_add, List.filter_append]
  have hnil : ((List.range k).map (m + ·)).filter p = [] := by
    rw [List.filter_eq_nil_iff]
    intro a ha hpa
    obtain ⟨x, _, rfl⟩ := List.mem_map.1 ha
    have := hp _ hpa
    omega
  rw [hnil, List.append_nil]

theorem filter_range_mem_eq {r0 : Row} {M : Nat} (hM : r0.length ≤ M) :
    (List.range M).filter (fun i => decide (i ∈ nonEmptyIndices r0)) = nonEmptyIndices r0 := by
  rw [filter_range_shrink _ hM ?bound]
  case bound =>
    intro i hi
    rw [decide_eq_true_eq] at hi
    exact List.mem_range.1 (List.mem_filter.1 hi).1
  conv_rhs => rw [nonEmptyIndices]
  apply List.filter_congr
  intro i hi
  cases hb : cellNonEmpty (List.getD r0 i none) with
  | true => simp [(cellNonEmpty_getD_iff r0 i).1 hb]
  | false =>
    have hni : ¬(i ∈ nonEmptyIndices r0) := fun hmem => by
      rw [(cellNonEmpty_getD_iff r0 i).2 hmem] at hb
      cases hb
    simp [hni]

theorem usageIn_uniform {t : Table} {S : List Nat} (rows : List Row)
    (hsub : rows ⊆ t) (hS : ∀ r ∈ t, nonEmptyIndices r = S) (i : Nat) :
    usageIn rows i = if i ∈ S then rows.length else 0 := by
  by_cases hi : i ∈ S
  · rw [if_pos hi, usageIn, List.filter_eq_self.2]
    intro r hr
    exact (cellNonEmpty_getD_iff r i).2 (by rw [hS r (hsub hr)]; exact hi)
  · rw [if_neg hi, usageIn]
    rw [show (rows.filter fun r => cellNonEmpty (r.getD i none)) = [] from ?_]
    · rfl
    · rw [List.filter_eq_nil_iff]
      intro r hr hcne
      exact hi (by rw [← hS r (hsub hr)]; exact (cellNonEmpty_getD_iff r i).1 hcne)

theorem addBack_noop_aux (header : Row) (cond : Nat → Bool) :
    ∀ (l : List Nat) (acc : List Nat),
    (∀ i, cellNonEmpty (header.getD i none) = true → i ∈ acc) →
    l.foldl (fun acc i =>
      if cellNonEmpty (header.getD i none) = true ∧ i ∉ acc ∧ cond i = true then acc ++ [i]
      else acc) acc = acc := by
  intro l
  induction l with
  | nil => intro acc _; rfl
  | cons j l ih =>
    intro acc h
    rw [List.foldl_cons, if_neg ?hneg]
    case hneg =>
      rintro ⟨h1, h2, _⟩
      exact h2 (h j h1)
    exact ih acc h

theorem addBack_noop (header : Row) (cond : Nat → Bool) (acc : List Nat)
    (h : ∀ i, cellNonEmpty (header.getD i none) = true → i ∈ acc) :
    addBack header cond acc = acc :=
  addBack_noop_aux header cond (List.range header.length) acc h

theorem insertAsc_of_le {x : Nat} : ∀ {l : List Nat}, (∀ y ∈ l, x ≤ y) → insertAsc x l = x :: l
  | [], _ => rfl
  | y :: ys, h => by rw [insertAsc, if_pos (h y (by simp))]

theorem sortAsc_of_sorted : ∀ {l : List Nat}, l.Pairwise (· ≤ ·) → sortAsc l = l
  | [], _ => rfl
  | x :: xs, h => by
    rw [sortAsc, sortAsc_of_sorted (List.pairwise_cons.1 h).2,
      insertAsc_of_le (List.pairwise_cons.1 h).1]

theorem nonEmptyIndices_nodup (r : Row) : (nonEmptyIndices r).Nodup :=
  (List.nodup_range _).filter _

theorem nonEmptyIndices_sorted (r : Row) : (nonEmptyIndices r).Pairwise (· ≤ ·) :=
  ((List.pairwise_lt_range _).filter _).imp Nat.le_of_lt

theorem findHeaderAux_zero_or_lt (target : Nat) :
    ∀ (cs : List Nat) (i : Nat),
    findHeaderAux target i cs = 0 ∨ findHeaderAux target i cs < i + cs.length := by
  intro cs
  induction cs with
  | nil => intro i; left; rfl
  | cons c cs ih =>
    intro i
    rw [findHeaderAux]
    split
    · right
      rw [List.length_cons]
      omega
    · rcases ih (i + 1) with h | h
      · left; exact h
      · right
        rw [List.length_cons]
        omega

theorem findHeaderAux_eq_findIdx (target : Nat) :
    ∀ (cs : List Nat) (i : Nat), (∃ c ∈ cs, 2 ≤ c ∧ target ≤ 2 * c) →
    findHeaderAux target i cs = i + cs.findIdx (fun c => decide (2 ≤ c ∧ target ≤ 2 * c)) := by
  intro cs
  induction cs with
  | nil =>
    rintro i ⟨c, hc, _⟩
    cases hc
  | cons c cs ih =>
    intro i hex
    rw [findHeaderAux, List.findIdx_cons]
    by_cases h : 2 ≤ c ∧ target ≤ 2 * c
    · rw [if_pos h]
      simp [h]
    · rw [if_neg h]
      have hex2 : ∃ c2 ∈ cs, 2 ≤ c2 ∧ target ≤ 2 * c2 := by
        obtain ⟨c2, hc2, hp⟩ := hex
        rcases List.mem_cons.1 hc2 with rfl | hmem
        · exact absurd hp h
        · exact ⟨c2, hmem, hp⟩
      rw [ih (i + 1) hex2]
      have hdec : (decide (2 ≤ c ∧ target ≤ 2 * c)) = false := by simp [h]
      rw [hdec]
      show i + 1 + _ = i + (cond false 0 _)
      rw [cond_false]
      omega

theorem findIdx_map' (f : α → β) (p : β → Bool) :
    ∀ l : List α, (l.map f).findIdx p = l.findIdx (fun a => p (f a))
  | [] => rfl
  | a :: l => by
    rw [List.map_cons, List.findIdx_cons, List.findIdx_cons, findIdx_map' f p l]

theorem pickTarget_mem (f : Nat → Nat) : ∀ (ks : List Nat) (k : Nat), pickTarget f k ks ∈ k :: ks := by
  intro ks
  induction ks with
  | nil => intro k; simp [pickTarget]
  | cons c cs ih =>
    intro k
    rw [pickTarget]
    split
    · have := ih c
      rcases List.mem_cons.1 this with h | h
      · rw [h]; simp
      · simp [List.mem_cons.2 (Or.inr h)]
    · have := ih k
      rcases List.mem_cons.1 this with h | h
      · rw [h]; simp
      · simp [List.mem_cons.2 (Or.inr h)]

theorem targetColCount_mem {t : Table}
    (hne : (t.map countNonEmpty).filter (fun c => decide (2 ≤ c)) ≠ []) :
    targetColCount t ∈ (t.map countNonEmpty).filter (fun c => decide (2 ≤ c)) := by
  rw [targetColCount]
  cases hd : ((t.map countNonEmpty).filter (fun c => decide (2 ≤ c))).dedup with
  | nil => exact absurd ((List.dedup_eq_nil _).1 hd) hne
  | cons k ks =>
    simp only [hd]
    have hmem := pickTarget_mem
      (fun c => ((t.map countNonEmpty).filter (fun c => decide (2 ≤ c))).count c) ks k
    rw [← hd] at hmem
    exact List.mem_dedup.1 hmem

theorem proj_range_id : ∀ (r : Row), (List.range r.length).map (fun i => r.getD i none) = r := by
  intro r
  induction r with
  | nil => rfl
  | cons a as ih =>
    rw [List.length_cons, List.range_succ_eq_map, List.map_cons, List.map_map]
    have hcomp : ((fun i => (a :: as).getD i none) ∘ Nat.succ) = fun i => as.getD i none := by
      funext i
      rfl
    rw [hcomp, List.getD_cons_zero, ih]

theorem map_self_of_eq {α : Type} {l : List α} {f : α → α} (h : ∀ x ∈ l, f x = x) :
    l.map f = l := by
  induction l with
  | nil => rfl
  | cons a as ih =>
    rw [List.map_cons, h a (by simp), ih (fun x hx => h x (by simp [hx]))]

theorem ffs_fst_lt_length {t : Table} (h : t ≠ []) : (findTableStructure t).1 < t.length := by
  have hpos : 0 < t.length := List.length_pos.2 h
  simp only [findTableStructure]
  by_cases h2 : t.length < 2
  · rw [if_pos h2]
    exact hpos
  · rw [if_neg h2]
    by_cases hfil : (t.map countNonEmpty).filter (fun c => decide (2 ≤ c)) = []
    · rw [if_pos hfil]
      exact hpos
    · rw [if_neg hfil]
      have hlt := findHeaderAux_zero_or_lt (targetColCount t) (t.map countNonEmpty) 0
      rw [List.length_map] at hlt
      split
      · show findHeaderAux _ 0 _ < _
        omega
      · show findHeaderAux _ 0 _ < _
        omega

theorem joinLines_reflow_head (L : List (List Char)) :
    ∀ c, (joinLines (reflowAux [] L)).head? = some c → isPyWS c = false := by
  intro c hc
  rcases hrf : reflowAux [] L with _ | ⟨y, ys⟩
  · rw [hrf] at hc
    exact absurd hc (by simp [joinLines])
  · rw [hrf] at hc
    obtain ⟨c0, r0, hy, hws⟩ := reflowAux_head L []
      (by intro x hx; exact absurd hx (by simp)) y (by rw [hrf]; rfl)
    have hyne : y ≠ [] := by rw [hy]; simp
    rw [joinLines_head hyne, hy] at hc
    have hcc : c0 = c := by simpa using hc
    rw [← hcc]
    exact hws

/-! ### Claim theorems -/

/-- C1 counterexample: `uniformWideGrid` has 2 rows, every row occupies
exactly columns 0 and 1 (a uniform rectangular structure with 2 occupied
columns), yet `_find_table_structure` does not retain exactly `[0, 1]`: the
under-retention guard pads the result to `[0, 1, 4]`. -/
theorem uniform_guard_counterexample :
    uniformWideGrid.length = 2 ∧
    (∀ r ∈ uniformWideGrid, nonEmptyIndices r = [0, 1]) ∧
    findTableStructure uniformWideGrid ≠ (0, some [0, 1]) ∧
    findTableStructure uniformWideGrid = (0, some [0, 1, 4]) := by decide

/-- C1 (amended): for every grid with at least 2 rows in which every row has
the same non-empty column index set `S` with at least 2 elements, the header
index is 0; and when moreover `S` has at least 3 elements or the grid is at
most 3 columns wide (so the under-retention guard does not fire), the
retained columns are exactly `S`. -/
theorem structure_uniform_grid (t : Table) (S : List Nat)
    (h2 : 2 ≤ t.length) (hS : ∀ r ∈ t, nonEmptyIndices r = S) (hk : 2 ≤ S.length) :
    (findTableStructure t).1 = 0 ∧
      (3 ≤ S.length ∨ maxCols t ≤ 3 → findTableStructure t = (0, some S)) := by
  obtain ⟨r0, t2, rfl⟩ : ∃ r0 t2, t = r0 :: t2 := by
    cases t with
    | nil => exact absurd h2 (by simp)
    | cons a b => exact ⟨a, b, rfl⟩
  have hr0 : nonEmptyIndices r0 = S := hS r0 (by simp)
  subst hr0
  have hlen2 : ¬(r0 :: t2).length < 2 := by omega
  have hcounts := counts_replicate hS
  have hfil : ((r0 :: t2).map countNonEmpty).filter (fun c => decide (2 ≤ c)) =
      List.replicate (r0 :: t2).length (nonEmptyIndices r0).length := by
    rw [hcounts, List.filter_eq_self.2]
    intro b hb
    rw [List.eq_of_mem_replicate hb]
    simpa using hk
  have hfilne : ((r0 :: t2).map countNonEmpty).filter (fun c => decide (2 ≤ c)) ≠ [] := by
    rw [hfil]
    intro hcon
    have hlencon := congrArg List.length hcon
    simp at hlencon
  have hpos : 0 < (r0 :: t2).length := by simp
  have htarget : targetColCount (r0 :: t2) = (nonEmptyIndices r0).length := by
    simp only [targetColCount]
    rw [hfil, dedup_replicate _ _ hpos]
    rfl
  have hcnt0 : countNonEmpty r0 = (nonEmptyIndices r0).length := countNonEmpty_eq r0
  have hhdr : findHeaderAux (targetColCount (r0 :: t2)) 0 ((r0 :: t2).map countNonEmpty) = 0 := by
    rw [htarget, List.map_cons, findHeaderAux, if_pos ?cond]
    case cond =>
      rw [hcnt0]
      exact ⟨hk, by omega⟩
  have ht2ne : t2 ≠ [] := by
    intro hcon
    rw [hcon] at h2
    simp at h2
  have hd1 : 1 ≤ t2.length := by
    rcases t2 with _ | ⟨x, xs⟩
    · exact absurd rfl ht2ne
    · simp
  have husage := usageIn_uniform t2 (fun x hx => List.mem_cons_of_mem r0 hx) hS
  have hbound : r0.length ≤ maxCols (r0 :: t2) := length_le_maxCols (by simp)
  have hcols1 : (List.range (maxCols (r0 :: t2))).filter
      (fun i => decide (max 20 (3 * t2.length) ≤ 20 * usageIn t2 i)) = nonEmptyIndices r0 := by
    have hstep : (List.range (maxCols (r0 :: t2))).filter
        (fun i => decide (max 20 (3 * t2.length) ≤ 20 * usageIn t2 i)) =
        (List.range (maxCols (r0 :: t2))).filter (fun i => decide (i ∈ nonEmptyIndices r0)) := by
      apply List.filter_congr
      intro i _
      apply decide_eq_decide.2
      rw [husage i]
      by_cases hi : i ∈ nonEmptyIndices r0
      · rw [if_pos hi]
        exact iff_of_true (Nat.max_le.2 ⟨by omega, by omega⟩) hi
      · rw [if_neg hi]
        refine iff_of_false (fun hcon => ?_) hi
        have h20 : (20 : Nat) ≤ 20 * 0 := le_trans (Nat.le_max_left 20 _) hcon
        omega
    rw [hstep, filter_range_mem_eq hbound]
  have haddback : addBack r0
      (fun i => decide (i < maxCols (r0 :: t2) ∧ 0 < usageIn t2 i)) (nonEmptyIndices r0) =
      nonEmptyIndices r0 := by
    apply addBack_noop
    intro i hi
    exact (cellNonEmpty_getD_iff r0 i).1 hi
  have hsort : sortAsc (nonEmptyIndices r0).dedup = nonEmptyIndices r0 := by
    rw [(nonEmptyIndices_nodup r0).dedup]
    exact sortAsc_of_sorted (nonEmptyIndices_sorted r0)
  have hdata : (r0 :: t2).drop (0 + 1) = t2 := by simp
  constructor
  · simp only [findTableStructure]
    rw [if_neg hlen2, if_neg hfilne, hhdr]
    split <;> rfl
  · intro hg
    have hgneg : ¬((nonEmptyIndices r0).length < 3 ∧ 3 < maxCols (r0 :: t2)) := by
      rcases hg with hg | hg
      · rintro ⟨hcon, _⟩; omega
      · rintro ⟨_, hcon⟩; omega
    simp only [findTableStructure]
    rw [if_neg hlen2, if_neg hfilne, hhdr, hdata, if_neg ht2ne, List.getD_cons_zero,
      hcols1, haddback, if_neg hgneg, hsort]

/-- C1 witness: the amended theorem applied to the concrete uniform 3-column
grid yields header 0 and retained columns `[0, 1, 2]`. -/
theorem structure_uniform_grid_witness :
    (2 ≤ uniform3Grid.length ∧ (∀ r ∈ uniform3Grid, nonEmptyIndices r = [0, 1, 2]) ∧
      2 ≤ ([0, 1, 2] : List Nat).length) ∧
    ((findTableStructure uniform3Grid).1 = 0 ∧
      (3 ≤ ([0, 1, 2] : List Nat).length ∨ maxCols uniform3Grid ≤ 3 →
        findTableStructure uniform3Grid = (0, some [0, 1, 2]))) :=
  ⟨⟨by decide, by decide, by decide⟩,
    structure_uniform_grid uniform3Grid [0, 1, 2] (by decide) (by decide) (by decide)⟩

/-- C2: for every grid in which some row has at least 2 non-empty cells, the
header index returned by `_find_table_structure` is the index of the first
row whose non-empty count is at least `max(2, target * 0.5)` (exactly:
`2 ≤ count` and `target ≤ 2 * count`); in particular `decorGrid` (blank
decorative first row, 3-column header, 5 full data rows) gets header index 1. -/
theorem header_first_relaxed_row (t : Table) (h : ∃ r ∈ t, 2 ≤ countNonEmpty r) :
    (findTableStructure t).1 =
      t.findIdx (fun r => decide (2 ≤ countNonEmpty r ∧ targetColCount t ≤ 2 * countNonEmpty r)) ∧
    (findTableStructure decorGrid).1 = 1 := by
  refine ⟨?_, by decide⟩
  have hfilne : (t.map countNonEmpty).filter (fun c => decide (2 ≤ c)) ≠ [] := by
    obtain ⟨r, hr, h2⟩ := h
    exact List.ne_nil_of_mem (List.mem_filter.2 ⟨List.mem_map_of_mem _ hr, by simpa using h2⟩)
  have htm := targetColCount_mem hfilne
  obtain ⟨htcounts, htge'⟩ := List.mem_filter.1 htm
  have htge : 2 ≤ targetColCount t := by simpa using htge'
  have hex : ∃ c ∈ t.map countNonEmpty, 2 ≤ c ∧ targetColCount t ≤ 2 * c :=
    ⟨targetColCount t, htcounts, htge, by omega⟩
  by_cases hlen : t.length < 2
  · rw [findTableStructure, if_pos hlen]
    rcases t with _ | ⟨r0, t2⟩
    · obtain ⟨r, hr, _⟩ := h
      cases hr
    · have ht2 : t2 = [] := by
        rw [List.length_cons] at hlen
        exact List.length_eq_zero.1 (by omega)
      subst ht2
      obtain ⟨c, hc, hcp⟩ := hex
      have hc0 : c = countNonEmpty r0 := by simpa using hc
      subst hc0
      rw [List.findIdx_cons]
      have hp : (decide (2 ≤ countNonEmpty r0 ∧ targetColCount [r0] ≤ 2 * countNonEmpty r0)) = true := by
        simp only [decide_eq_true_eq]
        exact hcp
      rw [hp]
      rfl
  · simp only [findTableStructure]
    rw [if_neg hlen, if_neg hfilne]
    rw [findHeaderAux_eq_findIdx _ _ 0 hex, findIdx_map']
    split
    · show 0 + _ = _
      rw [Nat.zero_add]
    · show 0 + _ = _
      rw [Nat.zero_add]

/-- C2 witness: the theorem applied to `decorGrid`, whose header row is found
at index 1. -/
theorem header_first_relaxed_row_witness :
    (∃ r ∈ decorGrid, 2 ≤ countNonEmpty r) ∧
    ((findTableStructure decorGrid).1 =
        decorGrid.findIdx (fun r => decide (2 ≤ countNonEmpty r ∧
          targetColCount decorGrid ≤ 2 * countNonEmpty r)) ∧
      (findTableStructure decorGrid).1 = 1) :=
  ⟨by decide, header_first_relaxed_row decorGrid (by decide)⟩

/-- C3: `_make_unique_columns` maps each name (after `None`-to-empty
conversion and trimming) so that a first occurrence stays bare and the k-th
later duplicate gets suffix `_k`, and `["Name","Total","Name"]` becomes
`["Name","Total","Name_1"]`. -/
theorem uniquify_suffix_scheme :
    (∀ cols : List Cell, makeUniqueColumns cols = specSuffixScheme [] (cols.map normName)) ∧
    makeUniqueColumns [some "Name", some "Total", some "Name"] = ["Name", "Total", "Name_1"] := by
  constructor
  · intro cols
    exact makeUniqueAux_spec cols [] [] (fun name => rfl)
  · decide

/-- C4: on the input `["Name", "Name", "Name_1"]` the function
`_make_unique_columns` returns `["Name", "Name_1", "Name_1"]`, which contains
a duplicate — the generated suffix collides with a pre-existing name, so the
output is not always duplicate-free. -/
theorem uniquify_duplicate_collision :
    makeUniqueColumns [some "Name", some "Name", some "Name_1"] = ["Name", "Name_1", "Name_1"] ∧
    ¬(makeUniqueColumns [some "Name", some "Name", some "Name_1"]).Nodup := by
  constructor
  · decide
  · decide

/-- C5: a cleaned table consisting of a single header row whose uniquified
names contain at least one non-blank entry yields a zero-row dataset with the
non-blank names as schema (no error, no discard). -/
theorem header_only_table_dataset (header : Row)
    (h : (makeUniqueColumns header).filter (fun c => decide (c ≠ "" ∧ pyStripStr c ≠ "")) ≠ []) :
    tableToDataset [header] =
      some ⟨(makeUniqueColumns header).filter (fun c => decide (c ≠ "" ∧ pyStripStr c ≠ "")), []⟩ := by
  simp only [tableToDataset]
  rw [if_neg (by simp), if_pos (by simp), List.headD_cons, if_pos h]

/-- C5 witness: the header `["ID", None]` yields the zero-row dataset with
schema `["ID"]`. -/
theorem header_only_table_dataset_witness :
    ((makeUniqueColumns ([some "ID", none] : Row)).filter
        (fun c => decide (c ≠ "" ∧ pyStripStr c ≠ "")) ≠ []) ∧
    tableToDataset [([some "ID", none] : Row)] =
      some ⟨(makeUniqueColumns ([some "ID", none] : Row)).filter
        (fun c => decide (c ≠ "" ∧ pyStripStr c ≠ "")), []⟩ :=
  ⟨by decide, header_only_table_dataset ([some "ID", none] : Row) (by decide)⟩

/-- C6: the outer-join concatenation's schema is the first-seen union of the
per-table schemas and is stable under incremental union (appending a dataset
appends exactly its new columns); the `[A,B]` + `[B,C]` scenario merges to
schema `[A,B,C]` with `None` filling the absent positions. -/
theorem merge_schema_first_seen_union :
    (∀ (ds : List Dataset) (d : Dataset),
      (outerConcat (ds ++ [d])).schema =
        (outerConcat ds).schema ++ d.schema.filter (fun c => decide (c ∉ (outerConcat ds).schema))) ∧
    (∀ d1 d2 : Dataset,
      (outerConcat [d1, d2]).schema =
        (outerConcat [d1]).schema ++ d2.schema.filter (fun c => decide (c ∉ (outerConcat [d1]).schema))) ∧
    (tableToDataset tableAB = some ⟨["A", "B"], [[some "a1", some "b1"]]⟩ ∧
      tableToDataset tableBC = some ⟨["B", "C"], [[some "b2", some "c2"]]⟩ ∧
      outerConcat [⟨["A", "B"], [[some "a1", some "b1"]]⟩, ⟨["B", "C"], [[some "b2", some "c2"]]⟩] =
        ⟨["A", "B", "C"], [[some "a1", some "b1", none], [none, some "b2", some "c2"]]⟩) := by
  have hstep : ∀ (ds : List Dataset) (d : Dataset),
      (outerConcat (ds ++ [d])).schema =
        (outerConcat ds).schema ++ d.schema.filter (fun c => decide (c ∉ (outerConcat ds).schema)) := by
    intro ds d
    show unionSchemas (ds ++ [d]) =
      unionSchemas ds ++ d.schema.filter (fun c => decide (c ∉ unionSchemas ds))
    rw [unionSchemas, unionSchemas, List.foldl_append, List.foldl_cons, List.foldl_nil]
  exact ⟨hstep, fun d1 d2 => by simpa using hstep [d1] d2, by decide, by decide, by decide⟩

/-- C7 counterexample: in `sparseMerged` (7 rows) column `B` has exactly one
non-null cell, strictly below the real-valued bound `max(1, 7 * 0.2) = 1.4`
(encoded exactly as `5 * count < max 5 rowcount`), yet the pruning step keeps
it, because the code truncates the threshold with `int()`. -/
theorem prune_threshold_counterexample :
    5 * colNonNACount sparseMerged 1 < max 5 sparseMerged.rows.length ∧
    sparseMerged.schema.getD 1 "" = "B" ∧
    "B" ∈ (dropSparseCols sparseMerged).schema := by decide

/-- C7 (amended): after the merge, a column survives the sparsity pruning iff
its non-null count is at least `max(1, int(rowcount * 0.2))`, i.e.
`max 1 (rowcount / 5)` with the truncated (floored) threshold. -/
theorem prune_threshold_floor (d : Dataset) (j : Nat) (hj : j < d.schema.length)
    (hnd : d.schema.Nodup) :
    d.schema.getD j "" ∈ (dropSparseCols d).schema ↔
      max 1 (d.rows.length / 5) ≤ colNonNACount d j := by
  simp only [dropSparseCols]
  constructor
  · intro hmem
    obtain ⟨i, hi, hgd⟩ := List.mem_map.1 hmem
    obtain ⟨hir, hcond⟩ := List.mem_filter.1 hi
    have hilen : i < d.schema.length := List.mem_range.1 hir
    rw [List.getD_eq_getElem d.schema "" hilen, List.getD_eq_getElem d.schema "" hj] at hgd
    have hij : i = j := (List.Nodup.getElem_inj_iff hnd).1 hgd
    subst hij
    simpa using hcond
  · intro hcnt
    apply List.mem_map.2
    exact ⟨j, List.mem_filter.2 ⟨List.mem_range.2 hj, by simpa using hcnt⟩, rfl⟩

/-- C7 witness: in `sparseMerged`, column 1 (named `B`, one non-null cell out
of 7 rows) meets the floored threshold `max 1 (7 / 5) = 1` and survives. -/
theorem prune_threshold_floor_witness :
    (1 < sparseMerged.schema.length ∧ sparseMerged.schema.Nodup) ∧
    (sparseMerged.schema.getD 1 "" ∈ (dropSparseCols sparseMerged).schema ↔
      max 1 (sparseMerged.rows.length / 5) ≤ colNonNACount sparseMerged 1) :=
  ⟨⟨by decide, by decide⟩, prune_threshold_floor sparseMerged 1 (by decide) (by decide)⟩

/-- C8: for every non-empty grid, `_clean_table` returns a non-empty table;
and when the whole retained-column cascade comes up empty it returns the rows
sliced from the header index onward unchanged. -/
theorem clean_preserves_nonempty (t : Table) (h : t ≠ []) :
    cleanTable t ≠ [] ∧
      (cascadeCols t = [] → cleanTable t = t.drop (findTableStructure t).1) := by
  have hlt := ffs_fst_lt_length h
  have hdrop : t.drop (findTableStructure t).1 ≠ [] := by
    rw [Ne, List.drop_eq_nil_iff]
    omega
  simp only [cleanTable]
  rw [if_neg h]
  by_cases hdropnil : t.drop (findTableStructure t).1 = []
  · exact absurd hdropnil hdrop
  · rw [if_neg hdropnil]
    by_cases hc : cascadeCols t = []
    · rw [if_pos hc]
      exact ⟨hdrop, fun _ => rfl⟩
    · rw [if_neg hc]
      constructor
      · rw [Ne, List.map_eq_nil_iff]
        exact hdropnil
      · intro hcc
        exact absurd hcc hc

/-- C8 witness: the all-empty 2-row grid is non-empty, its cascade finds no
columns, and cleaning returns the sliced grid unchanged (hence non-empty). -/
theorem clean_preserves_nonempty_witness :
    emptyGrid2 ≠ [] ∧
    (cleanTable emptyGrid2 ≠ [] ∧
      (cascadeCols emptyGrid2 = [] →
        cleanTable emptyGrid2 = emptyGrid2.drop (findTableStructure emptyGrid2).1)) :=
  ⟨by decide, clean_preserves_nonempty emptyGrid2 (by decide)⟩

/-- C9 counterexample: cleaning `uniformWideGrid` once yields a 3-column
table, cleaning twice drops the padded third column, so
`_clean_table ∘ _clean_table ≠ _clean_table` on this grid. -/
theorem clean_not_idempotent_counterexample :
    cleanTable (cleanTable uniformWideGrid) ≠ cleanTable uniformWideGrid ∧
    cleanTable uniformWideGrid = [[some "a", some "b", none], [some "c", some "d", none]] ∧
    cleanTable (cleanTable uniformWideGrid) = [[some "a", some "b"], [some "c", some "d"]] := by
  refine ⟨?_, by decide, by decide⟩
  decide

/-- C9 (amended): cleaning is the identity — hence idempotent at that point —
on any uniform-width table for which the detector reports header 0 and the
full column range (the "same retained-column result" of the spec); full
unconditional idempotence fails, as the counterexample shows. -/
theorem clean_fixed_on_detected_identity (c : Table) (w : Nat) (hw : 0 < w)
    (hlen : ∀ r ∈ c, r.length = w)
    (hffs : findTableStructure c = (0, some (List.range w))) :
    cleanTable c = c := by
  have hcne : c ≠ [] := by
    rintro rfl
    rw [findTableStructure, if_pos (by simp)] at hffs
    simp at hffs
  have hrange : (List.range w) ≠ [] := by
    rw [Ne, List.range_eq_nil]
    omega
  have h2 : (findTableStructure c).2 = some (List.range w) := by rw [hffs]
  have hcasc : cascadeCols c = List.range w := by
    simp only [cascadeCols, h2]
    rw [if_neg hrange]
  have h1 : (findTableStructure c).1 = 0 := by rw [hffs]
  simp only [cleanTable]
  rw [if_neg hcne, h1, List.drop_zero, if_neg hcne, hcasc, if_neg hrange]
  apply map_self_of_eq
  intro r hr
  rw [show List.range w = List.range r.length from by rw [hlen r hr]]
  exact proj_range_id r

/-- C9 witness: the uniform 3-column grid satisfies the amended hypotheses
and is a fixed point of cleaning. -/
theorem clean_fixed_on_detected_identity_witness :
    (0 < 3 ∧ (∀ r ∈ uniform3Grid, r.length = 3) ∧
      findTableStructure uniform3Grid = (0, some (List.range 3))) ∧
    cleanTable uniform3Grid = uniform3Grid :=
  ⟨⟨by decide, by decide, by decide⟩,
    clean_fixed_on_detected_identity uniform3Grid 3 (by decide) (by decide) (by decide)⟩

/-- C10: the string `_format_text` returns never begins with a newline or a
blank line — when non-empty, its first character is non-whitespace, since the
reflow step drops all leading blank lines (including the leading newline of
the page-delimiter block). -/
theorem format_text_no_leading_blank (text : List Char) (p n : Nat) :
    ∀ c, (formatTextChars text p n).head? = some c → isPyWS c = false := by
  intro c hc
  by_cases ht : text = []
  · rw [formatTextChars, if_pos ht] at hc
    exact absurd hc (by simp)
  · simp only [formatTextChars] at hc
    rw [if_neg ht] at hc
    exact joinLines_reflow_head _ c hc

/-- C10 witness: on the page text `"Hi"` (page 1 of 1) the formatter output
starts with the non-whitespace character `H`. -/
theorem format_text_no_leading_blank_witness :
    (formatTextChars ['H', 'i'] 1 1).head? = some 'H' ∧ isPyWS 'H' = false :=
  ⟨by decide, format_text_no_leading_blank ['H', 'i'] 1 1 'H' (by decide)⟩

end PdfProcessor
